import Mathlib

/-!
Verification of the bytecode disassembler / instruction-frequency reporter
(single C++ source file: main.cpp).

The development is a shallow embedding of the program:
bytes are natural numbers below 256 (access goes through `byteAt`, which
masks with 256 exactly where the source masks with 0xFF or relies on
8-bit chars), 32-bit machine integers are modelled as `Int` with explicit
two-complement wrapping (`toInt32`, `wrap32`), and `size_t` values as
`Nat` with the int-to-size_t conversion made explicit (`toSizeT`).
Fallible operations return `Except Err`.
-/

set_option maxHeartbeats 1000000
set_option maxRecDepth 100000

deriving instance DecidableEq for Except

/-- Error taxonomy: one constructor per distinct runtime_error thrown by the
    program (the string messages of main.cpp are listed in comments). -/
inductive Err where
  | eof               -- "EOF"
  | invalidOpcode     -- "Invalid opcode"
  | strOob            -- "String virtual address out of bounds"
  | invalidBinop      -- "Invalid BINOP"
  | invalidPatt       -- "Invalid PATT"
  | invalidClosure    -- "Invalid CLOSURE"
  | invalidMemOp      -- "Invalid memory operation"
  | badPsn            -- "Incorrect metadata: public_symbols_number"
  | badStringtabSize  -- "Incorrect metadata: stringtab_size"
  | unterminated      -- "Last string in table is not null-terminated"
  | ioError           -- "IO error"
deriving DecidableEq, Repr

/-- Byte access into a byte list; the mask by 256 models the 0xFF masking and
    8-bit char semantics of the source. Out-of-range access yields 0 and is
    only ever reached on paths that are undefined behaviour in the source. -/
def byteAt (l : List Nat) (i : Nat) : Nat := l.getD i 0 % 256

/-- Unsigned value of the 4 little-endian bytes at offset `off` (get_i32_le,
    before the final int32_t reinterpretation). -/
def le32 (l : List Nat) (off : Nat) : Nat :=
  byteAt l off + 256 * byteAt l (off + 1) + 65536 * byteAt l (off + 2) +
    16777216 * byteAt l (off + 3)

/-- Reinterpret an unsigned 32-bit value as a signed int32_t. -/
def toInt32 (n : Nat) : Int :=
  if n % 4294967296 < 2147483648 then ((n % 4294967296 : Nat) : Int)
  else ((n % 4294967296 : Nat) : Int) - 4294967296

/-- Two-complement wrap of an Int into the int32_t range. -/
def wrap32 (i : Int) : Int :=
  let m := i % 4294967296
  if m < 2147483648 then m else m - 4294967296

/-- Conversion of a (possibly negative) int value to size_t (64-bit). -/
def toSizeT (i : Int) : Nat := (i % 18446744073709551616).toNat

/-- get_i32_le of main.cpp: signed little-endian 32-bit read. -/
def get_i32_le (l : List Nat) (off : Nat) : Int := toInt32 (le32 l off)

/-- BytecodeFile of main.cpp: the three header fields and the byte buffer
    that follows the 12-byte header. -/
structure BytecodeFile where
  stringtab_size : Nat
  global_area_size : Nat
  public_symbols_number : Nat
  bytes : List Nat
deriving DecidableEq, Repr

/-- stringtab_start of main.cpp: 0 + 8 * public_symbols_number, where the
    product is computed in 32-bit unsigned arithmetic (int times uint32_t)
    before widening to size_t, hence the mod 2^32. -/
def stringtab_start (f : BytecodeFile) : Nat :=
  8 * f.public_symbols_number % 4294967296

/-- code_start of main.cpp: stringtab_start + stringtab_size (size_t sum). -/
def code_start (f : BytecodeFile) : Nat := stringtab_start f + f.stringtab_size

/-- code_size of main.cpp: size() - code_start. -/
def code_size (f : BytecodeFile) : Nat := f.bytes.length - code_start f

/-- The code region: the suffix of the buffer from code_start. -/
def codeRegion (f : BytecodeFile) : List Nat := f.bytes.drop (code_start f)

/-- First header word (stringtab_size): a short read leaves the
    zero-initialised buffer bytes in place, modelled by byteAt padding. -/
def hdr_sts (file : List Nat) : Nat := le32 file 0

/-- Second header word (global_area_size); after a short first read the
    stream has failed and the read yields 0. -/
def hdr_gas (file : List Nat) : Nat := if file.length < 4 then 0 else le32 file 4

/-- Third header word (public_symbols_number). -/
def hdr_psn (file : List Nat) : Nat := if file.length < 8 then 0 else le32 file 8

/-- The buffer read after the 12-byte header (empty if the header itself was
    short, since the stream is then exhausted or failed). -/
def hdr_body (file : List Nat) : List Nat :=
  if file.length < 12 then [] else file.drop 12

/-- Wrapped string-table start offset: 0 + 8 * public_symbols_number with the
    product computed in 32-bit unsigned arithmetic. -/
def hdr_stStart (file : List Nat) : Nat := 8 * hdr_psn file % 4294967296

/-- BytecodeFile::load, modelled on the whole file content. -/
def load (file : List Nat) : Except Err BytecodeFile :=
  if hdr_stStart file ≥ (hdr_body file).length then .error .badPsn
  else if hdr_stStart file + hdr_sts file ≥ (hdr_body file).length then
    .error .badStringtabSize
  else if hdr_sts file ≠ 0 ∧
      byteAt (hdr_body file) (hdr_stStart file + hdr_sts file - 1) ≠ 0 then
    .error .unterminated
  else if file.length < 12 then .error .ioError
  else .ok ⟨hdr_sts file, hdr_gas file, hdr_psn file, hdr_body file⟩

/-- Null-terminated C string starting at absolute buffer offset `i`,
    as streamed by operator<< on a const char pointer. -/
def cstrAt (l : List Nat) (i : Nat) : String :=
  String.mk (((l.drop i).takeWhile (fun b => b % 256 ≠ 0)).map
    (fun b => Char.ofNat (b % 256)))

/-- BytecodeFile::get_str: the int32_t argument is converted to size_t
    (negative values wrap to huge numbers), bounds-checked against
    stringtab_size, then the string at stringtab_start + off is returned. -/
def get_str (f : BytecodeFile) (i : Int) : Except Err String :=
  let off := toSizeT i
  if off ≥ f.stringtab_size then .error .strOob
  else .ok (cstrAt f.bytes (stringtab_start f + off))

/-- Instruction::size dispatch on the high and low nibble of the opcode.
    `w` is the code-region suffix starting at the instruction. For CLOSURE
    (0x54) the length 9 + 5*len is computed in 32-bit int arithmetic and the
    int result is converted to size_t, exactly as in the source. -/
def sizeHiLo (w : List Nat) (hi lo : Nat) : Except Err Nat :=
  if hi = 15 ∨ hi = 0 then .ok 1
  else if hi = 1 then
    if lo ≤ 1 then .ok 5
    else if lo = 2 then .ok 9
    else if lo ≤ 4 then .ok 1
    else if lo = 5 then .ok 5
    else if lo ≤ 11 then .ok 1
    else .error .invalidOpcode
  else if hi = 2 ∨ hi = 3 ∨ hi = 4 then .ok 5
  else if hi = 5 then
    if lo ≤ 1 then .ok 5
    else if lo ≤ 3 then .ok 9
    else if lo = 4 then .ok (toSizeT (wrap32 (9 + 5 * get_i32_le w 5)))
    else if lo = 5 then .ok 5
    else if lo ≤ 7 then .ok 9
    else if lo = 8 then .ok 5
    else if lo = 9 then .ok 9
    else if lo = 10 then .ok 5
    else .error .invalidOpcode
  else if hi = 6 then .ok 1
  else if hi = 7 then
    if lo ≤ 3 then .ok 1
    else if lo = 4 then .ok 5
    else .error .invalidOpcode
  else .error .invalidOpcode

/-- Instruction::size of main.cpp. -/
def instr_size (w : List Nat) : Except Err Nat :=
  sizeHiLo w (byteAt w 0 / 16) (byteAt w 0 % 16)

/-- Instruction::fits_in_size of main.cpp: the CLOSURE special case guards
    the 4-byte capture-count read before size() is evaluated. -/
def fits_in_size (w : List Nat) (limit : Nat) : Except Err Bool :=
  if byteAt w 0 = 84 ∧ limit < 9 then .ok false
  else match instr_size w with
    | .error e => .error e
    | .ok s => .ok (decide (s ≤ limit))

/-- BytecodeFile::get_instr, expressed on the code region list: bounds check
    on the offset, then the fits_in_size revalidation. On success the
    returned value is the code-region suffix starting at the instruction. -/
def get_instr (code : List Nat) (offset : Nat) : Except Err (List Nat) :=
  if offset ≥ code.length then .error .eof
  else match fits_in_size (code.drop offset) (code.length - offset) with
    | .error e => .error e
    | .ok true => .ok (code.drop offset)
    | .ok false => .error .eof

example : instr_size [240] = .ok 1 := by decide
example : instr_size [0] = .ok 1 := by decide
example : get_instr [84, 0,0,0,0, 52,51,51,51, 0,0,0,0] 0 = .ok [84, 0,0,0,0, 52,51,51,51, 0,0,0,0] := by decide
example : load [0,0,0,0, 0,0,0,0, 0,0,0,0, 240] = .ok ⟨0, 0, 0, [240]⟩ := by decide

/-- Lowercase hexadecimal digit. -/
def hexDigit (n : Nat) : Char :=
  if n < 10 then Char.ofNat (48 + n) else Char.ofNat (87 + n)

/-- Exactly `k` lowercase hex digits of `n`, most significant first. -/
def hexChars : Nat → Nat → List Char
  | 0, _ => []
  | k + 1, n => hexChars k (n / 16) ++ [hexDigit (n % 16)]

/-- Rendering of an int under std::hex with setw(8) and setfill(0): the value
    is shown as its unsigned 32-bit representation, zero-padded to 8 digits. -/
def hex8 (i : Int) : String := String.mk (hexChars 8 (toSizeT i % 4294967296))

/-- Instruction::get_int of main.cpp: unchecked signed read relative to the
    instruction start. -/
def gi (w : List Nat) (off : Nat) : Int := get_i32_le w off

/-- BINOPS table of Instruction::print. -/
def BINOPS : List String :=
  ["+", "-", "*", "/", "%", "<", "<=", ">", ">=", "==", "!=", "&&", "!!"]

/-- PATTERNS table of Instruction::print. -/
def PATTERNS : List String :=
  ["=str", "#string", "#array", "#sexp", "#ref", "#val", "#fun"]

/-- Capture list rendering of the CLOSURE case of Instruction::print.
    Returns the text emitted so far and the error, if any: on an invalid
    capture kind the source throws after having emitted the previous
    captures. `k` counts the remaining captures, `i` the current index. -/
def closureCaps (w : List Nat) : Nat → Nat → String × Option Err
  | 0, _ => ("", none)
  | k + 1, i =>
    let kind := byteAt w (9 + 5 * i)
    if kind = 0 ∨ kind = 1 ∨ kind = 2 ∨ kind = 3 then
      let tagStr := if kind = 0 then " G" else if kind = 1 then " L"
        else if kind = 2 then " A" else " C"
      let entry := tagStr ++ "(" ++ toString (gi w (10 + 5 * i)) ++ ")"
      let rest := closureCaps w k (i + 1)
      (entry ++ rest.1, rest.2)
    else ("", some .invalidClosure)

/-- Memory-operation rendering (LD / LDA / ST cases of Instruction::print).
    The mnemonic and tab are emitted before the low nibble is validated. -/
def memOp (name : String) (w : List Nat) (lo : Nat) : String × Option Err :=
  let base := name ++ "\t"
  if lo = 0 then (base ++ "G(" ++ toString (gi w 1) ++ ")", none)
  else if lo = 1 then (base ++ "L(" ++ toString (gi w 1) ++ ")", none)
  else if lo = 2 then (base ++ "A(" ++ toString (gi w 1) ++ ")", none)
  else if lo = 3 then (base ++ "C(" ++ toString (gi w 1) ++ ")", none)
  else (base, some .invalidMemOp)

/-- BINOP case (class 0) of Instruction::print. -/
def printBinop (lo : Nat) : String × Option Err :=
  if lo = 0 ∨ lo > 13 then ("", some .invalidBinop)
  else ("BINOP " ++ BINOPS.getD (lo - 1) "", none)

/-- Class 1 cases of Instruction::print (CONST through ELEM). -/
def printC1 (f : BytecodeFile) (w : List Nat) (lo : Nat) : String × Option Err :=
  if lo = 0 then ("CONST " ++ toString (gi w 1), none)
  else if lo = 1 then ("STRING " ++ toString (gi w 1), none)
  else if lo = 2 then
    (match get_str f (gi w 1) with
     | .error e => ("SEXP\t", some e)
     | .ok s => ("SEXP\t" ++ s ++ " " ++ toString (gi w 5), none))
  else if lo = 3 then ("STI", none)
  else if lo = 4 then ("STA", none)
  else if lo = 5 then ("JMP\t0x" ++ hex8 (gi w 1), none)
  else if lo = 6 then ("END", none)
  else if lo = 7 then ("RET", none)
  else if lo = 8 then ("DROP", none)
  else if lo = 9 then ("DUP", none)
  else if lo = 10 then ("SWAP", none)
  else if lo = 11 then ("ELEM", none)
  else ("", some .invalidOpcode)

/-- Class 5 cases of Instruction::print (CJMPz through LINE). -/
def printC5 (f : BytecodeFile) (w : List Nat) (lo : Nat) : String × Option Err :=
  if lo = 0 then ("CJMPz\t0x" ++ hex8 (gi w 1), none)
  else if lo = 1 then ("CJMPnz\t0x" ++ hex8 (gi w 1), none)
  else if lo = 2 then ("BEGIN\t" ++ toString (gi w 1) ++ " " ++ toString (gi w 5), none)
  else if lo = 3 then ("CBEGIN\t" ++ toString (gi w 1) ++ " " ++ toString (gi w 5), none)
  else if lo = 4 then
    ("CLOSURE\t" ++ hex8 (gi w 1) ++ (closureCaps w (gi w 5).toNat 0).1,
      (closureCaps w (gi w 5).toNat 0).2)
  else if lo = 5 then ("CALLC\t" ++ toString (gi w 1), none)
  else if lo = 6 then ("CALL\t0x" ++ hex8 (gi w 1) ++ " " ++ toString (gi w 5), none)
  else if lo = 7 then
    (match get_str f (gi w 1) with
     | .error e => ("TAG\t", some e)
     | .ok s => ("TAG\t" ++ s ++ " " ++ toString (gi w 5), none))
  else if lo = 8 then ("ARRAY\t" ++ toString (gi w 1), none)
  else if lo = 9 then ("FAIL\t" ++ toString (gi w 1) ++ " " ++ toString (gi w 5), none)
  else if lo = 10 then ("LINE\t" ++ toString (gi w 1), none)
  else ("", some .invalidOpcode)

/-- PATT case (class 6) of Instruction::print. -/
def printPatt (lo : Nat) : String × Option Err :=
  if lo ≥ 7 then ("", some .invalidPatt)
  else ("PATT\t" ++ PATTERNS.getD lo "", none)

/-- Class 7 cases of Instruction::print (builtin calls). -/
def printC7 (w : List Nat) (lo : Nat) : String × Option Err :=
  if lo = 0 then ("CALL\tLread", none)
  else if lo = 1 then ("CALL\tLwrite", none)
  else if lo = 2 then ("CALL\tLlength", none)
  else if lo = 3 then ("CALL\tLstring", none)
  else if lo = 4 then ("CALL\tBarray\t" ++ toString (gi w 1), none)
  else ("", some .invalidOpcode)

/-- The outer switch of Instruction::print. Classes 8 to 14 match no case of
    the switch (the `deafult` label in the source is a typo, dead code), so
    nothing is printed and no error is raised for them. -/
def printHiLo (f : BytecodeFile) (w : List Nat) (hi lo : Nat) : String × Option Err :=
  if hi = 15 then ("<end>", none)
  else if hi = 0 then printBinop lo
  else if hi = 1 then printC1 f w lo
  else if hi = 2 then memOp "LD" w lo
  else if hi = 3 then memOp "LDA" w lo
  else if hi = 4 then memOp "ST" w lo
  else if hi = 5 then printC5 f w lo
  else if hi = 6 then printPatt lo
  else if hi = 7 then printC7 w lo
  else ("", none)

/-- Instruction::print of main.cpp: canonical text of the instruction whose
    bytes start the list `w`, together with the error, if one is thrown. -/
def printInstr (f : BytecodeFile) (w : List Nat) : String × Option Err :=
  printHiLo f w (byteAt w 0 / 16) (byteAt w 0 % 16)

/-- Aggregation key of an instruction: the raw bytes [start, start + size),
    exactly the string_view used by operator==, operator< and the hash. -/
def instrKey (w : List Nat) (s : Nat) : List Nat := (w.take s).map (· % 256)

/-- The walk of Frequencies::parse: starting at offset 0, decode the
    instruction at the cursor, record its key, advance by its size. The walk
    ends when the cursor reaches the end of the code region. `fuel` bounds
    the number of steps; `none` models non-termination (possible in the
    source when a wrapped CLOSURE size is 0). -/
def walkAux (code : List Nat) : Nat → Nat → Option (Except Err (List (List Nat)))
  | 0, _ => none
  | fuel + 1, offset =>
    if offset < code.length then
      match get_instr code offset with
      | .error e => some (.error e)
      | .ok w =>
        match instr_size w with
        | .error e => some (.error e)
        | .ok s =>
          match walkAux code fuel (offset + s) with
          | none => none
          | some (.error e) => some (.error e)
          | some (.ok rest) => some (.ok (instrKey w s :: rest))
    else some (.ok [])

/-- Increment of the entry of key `k`, as done by try_emplace plus ++. -/
def bump (k : List Nat) (p : List Nat × Nat) : List Nat × Nat :=
  if p.1 == k then (p.1, p.2 + 1) else p

/-- Contents of the frequency hash map after the walk: each distinct key with
    its number of occurrences. The entry order of the model is irrelevant:
    the report is proved invariant under permutations of the entries. -/
def tally : List (List Nat) → List (List Nat × Nat)
  | [] => []
  | k :: ks =>
    let t := tally ks
    if t.any (fun p => p.1 == k) then t.map (bump k) else (k, 1) :: t

/-- Byte-wise lexicographic comparison, the semantics of
    std::string_view operator< (std::lexicographical_compare on
    unsigned chars). -/
def keyLt : List Nat → List Nat → Bool
  | [], [] => false
  | [], _ :: _ => true
  | _ :: _, [] => false
  | a :: as, b :: bs => a < b || (a == b && keyLt as bs)

/-- The order in which std::sort leaves the entries under the comparator of
    Frequencies::print: count strictly descending, ties broken by ascending
    byte-wise key order. `entryLE a b` says a may appear no later than b. -/
def entryLE (a b : List Nat × Nat) : Prop :=
  b.2 < a.2 ∨ (a.2 = b.2 ∧ (keyLt a.1 b.1 = true ∨ a.1 = b.1))

instance : DecidableRel entryLE := fun a b => by
  unfold entryLE
  exact inferInstance

/-- Line-by-line emission of Frequencies::print: the count and " x " are
    streamed before the instruction text, so a render error keeps the
    already-emitted prefix. -/
def emitReport (f : BytecodeFile) : List (List Nat × Nat) → String × Option Err
  | [] => ("", none)
  | (k, c) :: rest =>
    let head := toString c ++ " x "
    let line := printInstr f k
    match line.2 with
    | some e => (head ++ line.1, some e)
    | none =>
      let tail := emitReport f rest
      (head ++ line.1 ++ "\n" ++ tail.1, tail.2)

/-- Frequencies::print of main.cpp: sort the entries, then emit the lines. -/
def printReport (f : BytecodeFile) (entries : List (List Nat × Nat)) : String × Option Err :=
  emitReport f (List.insertionSort entryLE entries)

/-- The whole pipeline of main: load, parse, report. The first component of
    the result is everything written to standard output, the second the
    error that aborted the run, if any; `none` models non-termination. -/
def run (file : List Nat) (fuel : Nat) : Option (String × Option Err) :=
  match load file with
  | .error e => some ("", some e)
  | .ok f =>
    match walkAux (codeRegion f) fuel 0 with
    | none => none
    | some (.error e) => some ("", some e)
    | some (.ok keys) => some (printReport f (tally keys))

example : printInstr ⟨0,0,0,[]⟩ [16, 5,0,0,0] = ("CONST 5", none) := by decide
example : printInstr ⟨0,0,0,[]⟩ [240] = ("<end>", none) := by decide
example : printInstr ⟨0,0,0,[]⟩ [21, 255,255,255,255] = ("JMP\t0xffffffff", none) := by decide
example : run [0,0,0,0, 0,0,0,0, 0,0,0,0, 240] 2 = some ("1 x <end>\n", none) := by decide

/-- Bytes of a rendered string, for byte-wise comparison of report texts. -/
def strBytes (s : String) : List Nat := s.data.map Char.toNat

/-! Arithmetic helper lemmas about the 32-bit wrap model. -/

theorem wrap32_of_lt {i : Int} (h0 : 0 ≤ i) (h1 : i < 2147483648) : wrap32 i = i := by
  unfold wrap32
  rw [Int.emod_eq_of_lt h0 (by omega)]
  simp [h1]

theorem toSizeT_of_lt {i : Int} (h0 : 0 ≤ i) (h1 : i < 18446744073709551616) :
    toSizeT i = i.toNat := by
  unfold toSizeT
  rw [Int.emod_eq_of_lt h0 h1]

/-! Lemmas about the byte-wise key order. -/

theorem keyLt_irrefl : ∀ a : List Nat, keyLt a a = false := by
  intro a
  induction a with
  | nil => rfl
  | cons x xs ih => simp [keyLt, ih]

theorem keyLt_trans : ∀ a b c : List Nat,
    keyLt a b = true → keyLt b c = true → keyLt a c = true := by
  intro a
  induction a with
  | nil =>
    intro b c h1 h2
    cases b with
    | nil => simp [keyLt] at h1
    | cons y ys =>
      cases c with
      | nil => simp [keyLt] at h2
      | cons z zs => simp [keyLt]
  | cons x xs ih =>
    intro b c h1 h2
    cases b with
    | nil => simp [keyLt] at h1
    | cons y ys =>
      cases c with
      | nil => simp [keyLt] at h2
      | cons z zs =>
        simp only [keyLt, Bool.or_eq_true, Bool.and_eq_true, decide_eq_true_eq,
          beq_iff_eq] at h1 h2 ⊢
        rcases h1 with h1 | ⟨rfl, h1⟩
        · rcases h2 with h2 | ⟨rfl, h2⟩
          · exact Or.inl (h1.trans h2)
          · exact Or.inl h1
        · rcases h2 with h2 | ⟨rfl, h2⟩
          · exact Or.inl h2
          · exact Or.inr ⟨rfl, ih ys zs h1 h2⟩

theorem keyLt_asymm {a b : List Nat} (h : keyLt a b = true) : keyLt b a = false := by
  by_contra hc
  have hba : keyLt b a = true := by
    cases hv : keyLt b a with
    | true => rfl
    | false => exact absurd hv hc
  have := keyLt_trans a b a h hba
  rw [keyLt_irrefl] at this
  exact Bool.false_ne_true this

theorem keyLt_total_eq : ∀ a b : List Nat,
    keyLt a b = false → keyLt b a = false → a = b := by
  intro a
  induction a with
  | nil =>
    intro b h1 _
    cases b with
    | nil => rfl
    | cons y ys => simp [keyLt] at h1
  | cons x xs ih =>
    intro b h1 h2
    cases b with
    | nil => simp [keyLt] at h2
    | cons y ys =>
      simp only [keyLt, Bool.or_eq_false_iff, Bool.and_eq_false_iff,
        decide_eq_false_iff_not, beq_eq_false_iff_ne, ne_eq] at h1 h2
      obtain ⟨hxy, h1'⟩ := h1
      obtain ⟨hyx, h2'⟩ := h2
      have hxeq : x = y := by omega
      subst hxeq
      rcases h1' with h1' | h1'
      · exact absurd rfl h1'
      · rcases h2' with h2' | h2'
        · exact absurd rfl h2'
        · rw [ih ys h1' h2']

/-! The report order is a total, transitive, antisymmetric relation, so the
    sorted entry list is unique regardless of hash-map iteration order. -/

instance : IsTotal (List Nat × Nat) entryLE := by
  constructor
  intro a b
  unfold entryLE
  rcases Nat.lt_trichotomy a.2 b.2 with h | h | h
  · exact Or.inr (Or.inl h)
  · cases hab : keyLt a.1 b.1 with
    | true => exact Or.inl (Or.inr ⟨h, Or.inl rfl⟩)
    | false =>
      cases hba : keyLt b.1 a.1 with
      | true => exact Or.inr (Or.inr ⟨h.symm, Or.inl rfl⟩)
      | false => exact Or.inl (Or.inr ⟨h, Or.inr (keyLt_total_eq a.1 b.1 hab hba)⟩)
  · exact Or.inl (Or.inl h)

instance : IsTrans (List Nat × Nat) entryLE := by
  constructor
  intro a b c hab hbc
  unfold entryLE at hab hbc ⊢
  rcases hab with hab | ⟨hab2, hab1⟩
  · rcases hbc with hbc | ⟨hbc2, _⟩
    · exact Or.inl (hbc.trans hab)
    · exact Or.inl (by omega)
  · rcases hbc with hbc | ⟨hbc2, hbc1⟩
    · exact Or.inl (by omega)
    · refine Or.inr ⟨by omega, ?_⟩
      rcases hab1 with hab1 | hab1
      · rcases hbc1 with hbc1 | hbc1
        · exact Or.inl (keyLt_trans _ _ _ hab1 hbc1)
        · exact Or.inl (hbc1 ▸ hab1)
      · rcases hbc1 with hbc1 | hbc1
        · exact Or.inl (hab1 ▸ hbc1)
        · exact Or.inr (hab1.trans hbc1)

instance : IsAntisymm (List Nat × Nat) entryLE := by
  constructor
  intro a b hab hba
  unfold entryLE at hab hba
  have h2 : a.2 = b.2 := by
    rcases hab with h | ⟨h, _⟩ <;> rcases hba with h' | ⟨h', _⟩ <;> omega
  rcases hab with h | ⟨_, hab1⟩
  · omega
  · rcases hba with h' | ⟨_, hba1⟩
    · omega
    · have h1 : a.1 = b.1 := by
        rcases hab1 with hab1 | hab1
        · rcases hba1 with hba1 | hba1
          · have := keyLt_asymm hab1
            rw [this] at hba1
            exact absurd hba1 Bool.false_ne_true
          · exact hba1.symm
        · exact hab1
      exact Prod.ext h1 h2

theorem pairwise_conj {α : Type} {R S : α → α → Prop} :
    ∀ {l : List α}, l.Pairwise R → l.Pairwise S →
      l.Pairwise (fun a b => R a b ∧ S a b) := by
  intro l
  induction l with
  | nil => intro _ _; exact List.Pairwise.nil
  | cons x xs ih =>
    intro h1 h2
    obtain ⟨hx1, h1'⟩ := List.pairwise_cons.1 h1
    obtain ⟨hx2, h2'⟩ := List.pairwise_cons.1 h2
    exact List.Pairwise.cons (fun y hy => ⟨hx1 y hy, hx2 y hy⟩) (ih h1' h2')

/-! Lemmas about the frequency map model. -/

theorem bump_fst (k : List Nat) (p : List Nat × Nat) : (bump k p).1 = p.1 := by
  unfold bump
  split <;> rfl

theorem bump_of_ne {k : List Nat} {p : List Nat × Nat} (h : p.1 ≠ k) : bump k p = p := by
  unfold bump
  rw [if_neg (by simpa using h)]

theorem bump_of_eq {k : List Nat} {p : List Nat × Nat} (h : p.1 = k) :
    bump k p = (p.1, p.2 + 1) := by
  unfold bump
  rw [if_pos (by simpa using h)]

/-- The frequency map contains exactly one entry per distinct walked key, and
    its count is the number of occurrences of that key in the walk. -/
theorem tally_mem_count : ∀ (ks : List (List Nat)) (k : List Nat) (c : Nat),
    (k, c) ∈ tally ks ↔ (k ∈ ks ∧ c = ks.count k) := by
  intro ks
  induction ks with
  | nil => intro k c; simp [tally]
  | cons k0 ks ih =>
    intro k c
    by_cases hk0 : k0 ∈ ks
    · have hany : (tally ks).any (fun p => p.1 == k0) = true := by
        refine List.any_eq_true.2 ⟨(k0, ks.count k0), ?_, by simp⟩
        exact (ih k0 (ks.count k0)).2 ⟨hk0, rfl⟩
      simp only [tally, hany, if_true]
      rw [List.mem_map]
      by_cases hkk : k = k0
      · subst hkk
        constructor
        · rintro ⟨p, hp, hbump⟩
          by_cases hp1 : p.1 = k
          · rw [bump_of_eq hp1] at hbump
            have hc : c = p.2 + 1 := by
              have := congrArg Prod.snd hbump
              simpa using this.symm
            have hmem : (k, p.2) ∈ tally ks := by
              have hpeta : p = (p.1, p.2) := rfl
              rw [hp1] at hpeta
              exact hpeta ▸ hp
            obtain ⟨_, hcount⟩ := (ih k p.2).1 hmem
            refine ⟨List.mem_cons_self _ _, ?_⟩
            rw [List.count_cons_self, hc, hcount]
          · rw [bump_of_ne hp1] at hbump
            exact absurd (congrArg Prod.fst hbump) (by simpa using hp1)
        · rintro ⟨-, hc⟩
          refine ⟨(k, ks.count k), (ih k (ks.count k)).2 ⟨hk0, rfl⟩, ?_⟩
          rw [List.count_cons_self] at hc
          simp [bump, hc]
      · constructor
        · rintro ⟨p, hp, hbump⟩
          by_cases hp1 : p.1 = k0
          · rw [bump_of_eq hp1] at hbump
            have : p.1 = k := congrArg Prod.fst hbump
            exact absurd (this.symm.trans hp1) hkk
          · rw [bump_of_ne hp1] at hbump
            subst hbump
            obtain ⟨hmem, hcount⟩ := (ih k c).1 hp
            exact ⟨List.mem_cons_of_mem _ hmem, by rw [List.count_cons_of_ne hkk, hcount]⟩
        · rintro ⟨hmem, hc⟩
          have hmem' : k ∈ ks := by
            rcases List.mem_cons.1 hmem with h | h
            · exact absurd h hkk
            · exact h
          rw [List.count_cons_of_ne hkk] at hc
          refine ⟨(k, c), (ih k c).2 ⟨hmem', hc⟩, bump_of_ne hkk⟩
    · have hany : (tally ks).any (fun p => p.1 == k0) = false := by
        rw [Bool.eq_false_iff]
        intro hc
        obtain ⟨p, hp, hpk⟩ := List.any_eq_true.1 hc
        have hpeta : p = (p.1, p.2) := rfl
        have hp' : (p.1, p.2) ∈ tally ks := hpeta ▸ hp
        have := ((ih p.1 p.2).1 hp').1
        rw [beq_iff_eq] at hpk
        exact hk0 (hpk ▸ this)
      simp only [tally, hany, Bool.false_eq_true, if_false]
      by_cases hkk : k = k0
      · subst hkk
        constructor
        · intro hmem
          rcases List.mem_cons.1 hmem with h | h
          · have hc1 : c = 1 := congrArg Prod.snd h
            refine ⟨List.mem_cons_self _ _, ?_⟩
            rw [List.count_cons_self, List.count_eq_zero.2 hk0, hc1]
          · exact absurd ((ih k c).1 h).1 hk0
        · rintro ⟨-, hc⟩
          rw [List.count_cons_self, List.count_eq_zero.2 hk0] at hc
          rw [hc]
          exact List.mem_cons_self _ _
      · constructor
        · intro hmem
          rcases List.mem_cons.1 hmem with h | h
          · exact absurd (congrArg Prod.fst h) hkk
          · obtain ⟨hmem', hcount⟩ := (ih k c).1 h
            exact ⟨List.mem_cons_of_mem _ hmem', by rw [List.count_cons_of_ne hkk, hcount]⟩
        · rintro ⟨hmem, hc⟩
          have hmem' : k ∈ ks := by
            rcases List.mem_cons.1 hmem with h | h
            · exact absurd h hkk
            · exact h
          rw [List.count_cons_of_ne hkk] at hc
          exact List.mem_cons_of_mem _ ((ih k c).2 ⟨hmem', hc⟩)

/-- Distinct entries of the frequency map have distinct keys. -/
theorem tally_pairwise_ne : ∀ ks : List (List Nat),
    (tally ks).Pairwise (fun a b => a.1 ≠ b.1) := by
  intro ks
  induction ks with
  | nil => exact List.Pairwise.nil
  | cons k0 ks ih =>
    simp only [tally]
    split
    · rw [List.pairwise_map]
      refine ih.imp ?_
      intro a b hab
      rw [bump_fst, bump_fst]
      exact hab
    · rename_i hany
      refine List.Pairwise.cons ?_ ih
      intro p hp h1
      have hpeta : p = (p.1, p.2) := rfl
      have hp' : (p.1, p.2) ∈ tally ks := hpeta ▸ hp
      have hmem := ((tally_mem_count ks p.1 p.2).1 hp').1
      rw [List.any_eq_true] at hany
      exact hany ⟨p, hp, by simp [← h1]⟩

/-! Error-shape lemmas for the rendering functions. -/

theorem closureCaps_snd (w : List Nat) : ∀ (k i : Nat),
    (closureCaps w k i).2 = none ∨ (closureCaps w k i).2 = some Err.invalidClosure := by
  intro k
  induction k with
  | zero => intro i; left; rfl
  | succ k ih =>
    intro i
    simp only [closureCaps]
    split
    · exact ih (i + 1)
    · right; rfl

theorem memOp_snd (name : String) (w : List Nat) (lo : Nat) :
    (memOp name w lo).2 = none ∨ (memOp name w lo).2 = some Err.invalidMemOp := by
  unfold memOp
  split
  · left; rfl
  · split
    · left; rfl
    · split
      · left; rfl
      · split
        · left; rfl
        · right; rfl

theorem printBinop_snd (lo : Nat) :
    (printBinop lo).2 = none ∨ (printBinop lo).2 = some Err.invalidBinop := by
  unfold printBinop
  split
  · right; rfl
  · left; rfl

theorem printPatt_snd (lo : Nat) :
    (printPatt lo).2 = none ∨ (printPatt lo).2 = some Err.invalidPatt := by
  unfold printPatt
  split
  · right; rfl
  · left; rfl

theorem printC1_strOob (f : BytecodeFile) (w : List Nat) (lo : Nat) (hlo : lo < 16)
    (h : (printC1 f w lo).2 = some Err.strOob) : lo = 2 := by
  interval_cases lo <;> first | rfl | simp [printC1] at h

theorem printC5_strOob (f : BytecodeFile) (w : List Nat) (lo : Nat) (hlo : lo < 16)
    (h : (printC5 f w lo).2 = some Err.strOob) : lo = 7 := by
  interval_cases lo <;>
    first
      | rfl
      | (simp [printC5] at h; done)
      | (rcases closureCaps_snd w (gi w 5).toNat 0 with hm | hm <;>
          simp [printC5, hm] at h)

theorem printC7_snd (w : List Nat) (lo : Nat) (hlo : lo < 16) :
    (printC7 w lo).2 = none ∨ (printC7 w lo).2 = some Err.invalidOpcode := by
  interval_cases lo <;> first | (left; rfl) | (right; rfl)

/-! Lemmas about decoding. -/

theorem get_instr_ok {code : List Nat} {offset : Nat} {w : List Nat}
    (h : get_instr code offset = .ok w) :
    offset < code.length ∧ w = code.drop offset ∧
      fits_in_size (code.drop offset) (code.length - offset) = .ok true := by
  unfold get_instr at h
  split at h
  · exact absurd h (by simp)
  · rename_i hoff
    cases hfit : fits_in_size (code.drop offset) (code.length - offset) with
    | error e => rw [hfit] at h; simp at h
    | ok b =>
      cases b with
      | false => rw [hfit] at h; simp at h
      | true =>
        rw [hfit] at h
        simp at h
        exact ⟨by omega, h.symm, rfl⟩

theorem fits_closure {w : List Nat} {limit : Nat} (hb : byteAt w 0 = 84)
    (h : fits_in_size w limit = .ok true) :
    9 ≤ limit ∧ instr_size w = .ok (toSizeT (wrap32 (9 + 5 * get_i32_le w 5))) ∧
      toSizeT (wrap32 (9 + 5 * get_i32_le w 5)) ≤ limit := by
  have hsz : instr_size w = .ok (toSizeT (wrap32 (9 + 5 * get_i32_le w 5))) := by
    unfold instr_size
    rw [hb]
    rfl
  unfold fits_in_size at h
  split at h
  · simp at h
  · rename_i hcond
    have h9 : 9 ≤ limit := by
      rcases Nat.lt_or_ge limit 9 with hl | hg
      · exact absurd ⟨hb, hl⟩ hcond
      · exact hg
    rw [hsz] at h
    simp at h
    exact ⟨h9, hsz, h⟩

/-- A successful walk that records nothing is only possible on an empty code
    region: the halt marker does not terminate the walk of the source. -/
theorem walk_ok_nil {code : List Nat} {fuel : Nat}
    (h : walkAux code fuel 0 = some (.ok [])) : code = [] := by
  cases fuel with
  | zero => simp [walkAux] at h
  | succ fuel =>
    unfold walkAux at h
    split at h
    · repeat' split at h
      all_goals simp at h
    · exact List.length_eq_zero.mp (by omega)

/-- The success branch of load: the code region start (which equals the
    wrapped string-table end offset) lies strictly inside the buffer. -/
theorem load_ok_inv {file : List Nat} {f : BytecodeFile} (h : load file = .ok f) :
    code_start f < f.bytes.length := by
  unfold load at h
  repeat' split at h
  all_goals
    first
      | (have hf : (⟨hdr_sts file, hdr_gas file, hdr_psn file, hdr_body file⟩ :
            BytecodeFile) = f := Except.ok.inj h
         subst hf
         simp only [code_start, stringtab_start, hdr_stStart] at *
         omega)
      | (simp at h; done)

/-- The failure branch of load for oversized declared regions. -/
theorem load_bad_regions {file : List Nat} (h12 : 12 ≤ file.length)
    (hge : file.length - 12 ≤ hdr_stStart file + hdr_sts file) :
    load file = .error .badPsn ∨ load file = .error .badStringtabSize := by
  have hlen : (hdr_body file).length = file.length - 12 := by
    unfold hdr_body
    rw [if_neg (by omega), List.length_drop]
  by_cases h1 : hdr_stStart file ≥ (hdr_body file).length
  · left
    unfold load
    rw [if_pos h1]
  · right
    unfold load
    rw [if_neg h1, if_pos (by rw [ge_iff_le, hlen]; omega)]

/-- Of all opcode classes, only SEXP (class 1, sub-op 2) and TAG (class 5,
    sub-op 7) can raise the string-out-of-bounds error. -/
theorem printHiLo_strOob (f : BytecodeFile) (w : List Nat) (hi lo : Nat)
    (hhi : hi < 16) (hlo : lo < 16)
    (h : (printHiLo f w hi lo).2 = some Err.strOob) :
    (hi = 1 ∧ lo = 2) ∨ (hi = 5 ∧ lo = 7) := by
  interval_cases hi <;>
    first
      | (simp [printHiLo] at h; done)
      | (exact Or.inl ⟨rfl, printC1_strOob f w lo hlo (by simpa [printHiLo] using h)⟩)
      | (exact Or.inr ⟨rfl, printC5_strOob f w lo hlo (by simpa [printHiLo] using h)⟩)
      | (rcases printBinop_snd lo with hm | hm <;> simp [printHiLo, hm] at h; done)
      | (rcases printPatt_snd lo with hm | hm <;> simp [printHiLo, hm] at h; done)
      | (rcases printC7_snd w lo hlo with hm | hm <;> simp [printHiLo, hm] at h; done)
      | (rcases memOp_snd "LD" w lo with hm | hm <;> simp [printHiLo, hm] at h; done)
      | (rcases memOp_snd "LDA" w lo with hm | hm <;> simp [printHiLo, hm] at h; done)
      | (rcases memOp_snd "ST" w lo with hm | hm <;> simp [printHiLo, hm] at h; done)

/-! Claim theorems. -/

/-- Claim C1, counterexample: a code region consisting of exactly one
    halt-marker byte (0xF0) does NOT produce an empty report; the whole
    pipeline outputs the single line `1 x <end>` and no error. The halt
    marker is counted and rendered, contradicting the claim that the walk
    terminates at it without recording it. -/
theorem C1_counterexample :
    run [0,0,0,0, 0,0,0,0, 0,0,0,0, 240] 2 = some ("1 x <end>\n", none) ∧
    ("1 x <end>\n" : String) ≠ "" := by
  constructor
  · decide
  · decide

/-- Claim C1, amended: the walk of Frequencies::parse terminates only at the
    end of the code region; a halt marker is decoded, counted and rendered
    as `<end>` like any other instruction. Concretely, the one-halt-byte
    container reports `1 x <end>`, and no nonempty code region can walk to
    a successful empty record list. -/
theorem C1_halt_not_special :
    run [0,0,0,0, 0,0,0,0, 0,0,0,0, 240] 2 = some ("1 x <end>\n", none) ∧
    (∀ (code : List Nat) (fuel : Nat), code ≠ [] →
      walkAux code fuel 0 ≠ some (.ok [])) := by
  refine ⟨by decide, ?_⟩
  intro code fuel hne hw
  exact hne (walk_ok_nil hw)

/-- Witness for C1_halt_not_special at a concrete input: the one-byte halt
    region yields a nonempty successful walk. -/
theorem C1_witness : walkAux [240] 2 0 ≠ some (.ok []) :=
  C1_halt_not_special.2 [240] 2 (by decide)

/-- Claim C2, counterexample: two SEXP instructions with different raw bytes
    (string-table offsets 0 and 2, which alias the same string "a") render
    to byte-identical canonical text but are aggregated under different
    frequency-table keys, producing two separate count-1 entries. -/
theorem C2_counterexample :
    load [4,0,0,0, 0,0,0,0, 0,0,0,0,
          97,0,97,0,
          18,0,0,0,0, 1,0,0,0, 18,2,0,0,0, 1,0,0,0, 240] =
      .ok ⟨4, 0, 0, [97,0,97,0, 18,0,0,0,0,1,0,0,0, 18,2,0,0,0,1,0,0,0, 240]⟩ ∧
    walkAux (codeRegion ⟨4, 0, 0,
        [97,0,97,0, 18,0,0,0,0,1,0,0,0, 18,2,0,0,0,1,0,0,0, 240]⟩) 4 0 =
      some (.ok [[18,0,0,0,0,1,0,0,0], [18,2,0,0,0,1,0,0,0], [240]]) ∧
    tally [[18,0,0,0,0,1,0,0,0], [18,2,0,0,0,1,0,0,0], [240]] =
      [([18,0,0,0,0,1,0,0,0], 1), ([18,2,0,0,0,1,0,0,0], 1), ([240], 1)] ∧
    printInstr ⟨4, 0, 0, [97,0,97,0, 18,0,0,0,0,1,0,0,0, 18,2,0,0,0,1,0,0,0, 240]⟩
        [18,0,0,0,0,1,0,0,0] = ("SEXP\ta 1", none) ∧
    printInstr ⟨4, 0, 0, [97,0,97,0, 18,0,0,0,0,1,0,0,0, 18,2,0,0,0,1,0,0,0, 240]⟩
        [18,2,0,0,0,1,0,0,0] = ("SEXP\ta 1", none) ∧
    ([18,0,0,0,0,1,0,0,0] : List Nat) ≠ [18,2,0,0,0,1,0,0,0] := by
  refine ⟨by decide, by decide, by decide, by decide, by decide, by decide⟩

/-- Claim C2, amended: two decoded instructions are aggregated under the same
    frequency-table key if and only if their raw instruction bytes are
    identical: the frequency map has pairwise distinct raw-byte keys and one
    entry per occurring key, counting exactly its occurrences in the walk. -/
theorem C2_aggregation_by_raw_bytes (keys : List (List Nat)) :
    (tally keys).Pairwise (fun a b => a.1 ≠ b.1) ∧
    (∀ (k : List Nat) (c : Nat), (k, c) ∈ tally keys ↔ (k ∈ keys ∧ c = keys.count k)) :=
  ⟨tally_pairwise_ne keys, fun k c => tally_mem_count keys k c⟩

/-- Witness for C2_aggregation_by_raw_bytes at a concrete input. -/
theorem C2_witness : ([7], 1) ∈ tally [[7]] :=
  ((C2_aggregation_by_raw_bytes [[7]]).2 [7] 1).mpr (by decide)

/-- Claim C3, counterexample: with equal counts the report is ordered by the
    raw instruction bytes, not by the canonical text: the report lists
    `CONST 2` (bytes 10 02 00 00 00) before `CONST 10` (bytes 10 0a 00 00 00)
    even though the text "CONST 10" is lexicographically smaller than
    "CONST 2". -/
theorem C3_counterexample :
    run [0,0,0,0, 0,0,0,0, 0,0,0,0, 16,2,0,0,0, 16,10,0,0,0, 240] 4 =
      some ("1 x CONST 2\n1 x CONST 10\n1 x <end>\n", none) ∧
    keyLt (strBytes "CONST 10") (strBytes "CONST 2") = true := by
  constructor
  · decide
  · decide

/-- Claim C3, amended: in the sorted report, for every pair of lines the
    earlier one has a strictly greater count, or the counts are equal and
    the earlier entry has strictly smaller RAW INSTRUCTION BYTES in the
    byte-wise lexicographic order (which is the comparator of the source,
    not the canonical-text order). -/
theorem C3_report_order (entries : List (List Nat × Nat))
    (hne : entries.Pairwise (fun a b => a.1 ≠ b.1)) :
    (List.insertionSort entryLE entries).Pairwise
      (fun a b => b.2 < a.2 ∨ (a.2 = b.2 ∧ keyLt a.1 b.1 = true)) := by
  have hs : (List.insertionSort entryLE entries).Pairwise entryLE :=
    List.sorted_insertionSort entryLE entries
  have hne' : (List.insertionSort entryLE entries).Pairwise (fun a b => a.1 ≠ b.1) :=
    ((List.perm_insertionSort entryLE entries).pairwise_iff
      (fun hxy => hxy.symm)).2 hne
  refine (pairwise_conj hs hne').imp ?_
  intro a b hab
  obtain ⟨hle, hab1⟩ := hab
  unfold entryLE at hle
  rcases hle with h | ⟨h2, hk⟩
  · exact Or.inl h
  · rcases hk with hk | hk
    · exact Or.inr ⟨h2, hk⟩
    · exact absurd hk hab1

/-- Witness for C3_report_order at a concrete input. -/
theorem C3_witness :
    (List.insertionSort entryLE [([0], 1), ([1], 1)]).Pairwise
      (fun a b => b.2 < a.2 ∨ (a.2 = b.2 ∧ keyLt a.1 b.1 = true)) :=
  C3_report_order [([0], 1), ([1], 1)] (by decide)

/-- Claim C4, counterexample: a closure-construction instruction whose
    declared capture count is 858993460 (0x33333334) places all its capture
    entries far beyond the 13-byte code region, yet decoding SUCCEEDS,
    because 9 + 5 * 858993460 overflows 32-bit int arithmetic and wraps to
    the size 13. The capture list is effectively truncated silently. -/
theorem C4_counterexample :
    get_i32_le [84, 0,0,0,0, 52,51,51,51, 0,0,0,0] 5 = 858993460 ∧
    (13 : Nat) < 9 + 5 * 858993460 ∧
    get_instr [84, 0,0,0,0, 52,51,51,51, 0,0,0,0] 0 =
      .ok [84, 0,0,0,0, 52,51,51,51, 0,0,0,0] ∧
    instr_size [84, 0,0,0,0, 52,51,51,51, 0,0,0,0] = .ok 13 := by
  refine ⟨by decide, by decide, by decide, by decide⟩

/-- Claim C4, amended: provided the total length 9 + 5 * n does not overflow
    32-bit signed int arithmetic (0 ≤ n and 9 + 5 * n < 2^31), a
    closure-construction instruction whose declared captures extend past the
    end of the code region fails to decode with the EOF error; with
    overflow, the wrapped size can make a truncated capture list decode. -/
theorem C4_truncated_closure_eof (code : List Nat) (offset : Nat)
    (hb : byteAt (code.drop offset) 0 = 84)
    (hn : 0 ≤ get_i32_le (code.drop offset) 5)
    (hov : 9 + 5 * get_i32_le (code.drop offset) 5 < 2147483648)
    (hlen : code.length < offset + (9 + 5 * get_i32_le (code.drop offset) 5).toNat) :
    get_instr code offset = .error .eof := by
  have hoff : offset < code.length := by
    by_contra hc
    rw [List.drop_eq_nil_of_le (by omega)] at hb
    simp [byteAt] at hb
  have hn9 : (0 : Int) ≤ 9 + 5 * get_i32_le (code.drop offset) 5 := by omega
  unfold get_instr
  rw [if_neg (by omega)]
  have hs0 : instr_size (code.drop offset) =
      .ok (toSizeT (wrap32 (9 + 5 * get_i32_le (code.drop offset) 5))) := by
    unfold instr_size
    rw [hb]
    rfl
  rw [wrap32_of_lt hn9 hov, toSizeT_of_lt hn9 (by omega)] at hs0
  have hfits : fits_in_size (code.drop offset) (code.length - offset) = .ok false := by
    unfold fits_in_size
    by_cases h9 : code.length - offset < 9
    · rw [if_pos ⟨hb, h9⟩]
    · rw [if_neg (fun hc => h9 hc.2)]
      rw [hs0]
      simp only [decide_eq_false_iff_not]
      have : ¬ ((9 + 5 * get_i32_le (code.drop offset) 5).toNat ≤
          code.length - offset) := by omega
      simp [this]
  rw [hfits]

/-- Witness for C4_truncated_closure_eof: the scenario of the claim, a
    closure declaring 2 captures with only one capture pair of trailing
    bytes, fails to decode with the EOF error. -/
theorem C4_witness :
    get_instr [84, 0,0,0,0, 2,0,0,0, 0, 0,0,0,0] 0 = .error .eof :=
  C4_truncated_closure_eof [84, 0,0,0,0, 2,0,0,0, 0, 0,0,0,0] 0
    (by decide) (by decide) (by decide) (by decide)

/-- Claim C5, counterexample: a successfully decoded closure-construction
    instruction with capture count 858993462 (0x33333336) has computed
    byte_length 23, which differs from the exact value of 9 + 5 * n
    (4294967319), because the source computes the length in wrapping 32-bit
    int arithmetic. -/
theorem C5_counterexample :
    get_i32_le ([84, 0,0,0,0, 54,51,51,51] ++ List.replicate 14 0) 5 = 858993462 ∧
    get_instr ([84, 0,0,0,0, 54,51,51,51] ++ List.replicate 14 0) 0 =
      .ok ([84, 0,0,0,0, 54,51,51,51] ++ List.replicate 14 0) ∧
    instr_size ([84, 0,0,0,0, 54,51,51,51] ++ List.replicate 14 0) = .ok 23 ∧
    (23 : Int) ≠ 9 + 5 * 858993462 := by
  refine ⟨by decide, by decide, by decide, by decide⟩

/-- Claim C5, amended: for every successfully decoded closure-construction
    instruction the computed byte_length is the 32-bit-wrapped evaluation of
    9 + 5 * n converted to size_t; every byte in [offset, offset + size)
    lies within the code region; and when 9 + 5 * n does not overflow
    int32, the byte_length equals the exact 9 + 5 * n. -/
theorem C5_closure_size (code : List Nat) (offset : Nat) (w : List Nat)
    (h : get_instr code offset = .ok w) (hb : byteAt w 0 = 84) :
    instr_size w = .ok (toSizeT (wrap32 (9 + 5 * get_i32_le w 5))) ∧
    (∀ s, instr_size w = .ok s → offset + s ≤ code.length) ∧
    (0 ≤ 9 + 5 * get_i32_le w 5 → 9 + 5 * get_i32_le w 5 < 2147483648 →
      instr_size w = .ok (9 + 5 * get_i32_le w 5).toNat) := by
  obtain ⟨hoff, hw, hfit⟩ := get_instr_ok h
  subst hw
  obtain ⟨h9, hsz, hle⟩ := fits_closure hb hfit
  refine ⟨hsz, ?_, ?_⟩
  · intro s hs
    rw [hsz] at hs
    injection hs with hs'
    omega
  · intro hn hov
    rw [hsz, wrap32_of_lt hn hov, toSizeT_of_lt hn (by omega)]

/-- Witness for C5_closure_size: a fully valid one-capture closure decodes
    with byte_length 14 = 9 + 5 * 1, fitting the region exactly. -/
theorem C5_witness :
    instr_size [84, 1,0,0,0, 1,0,0,0, 0, 7,0,0,0] =
      .ok (toSizeT (wrap32 (9 + 5 * get_i32_le [84, 1,0,0,0, 1,0,0,0, 0, 7,0,0,0] 5))) ∧
    (0 : Nat) + 14 ≤ ([84, 1,0,0,0, 1,0,0,0, 0, 7,0,0,0] : List Nat).length ∧
    instr_size [84, 1,0,0,0, 1,0,0,0, 0, 7,0,0,0] =
      .ok (9 + 5 * get_i32_le [84, 1,0,0,0, 1,0,0,0, 0, 7,0,0,0] 5).toNat := by
  have h := C5_closure_size [84, 1,0,0,0, 1,0,0,0, 0, 7,0,0,0] 0
    [84, 1,0,0,0, 1,0,0,0, 0, 7,0,0,0] (by decide) (by decide)
  exact ⟨h.1, h.2.1 14 (by decide), h.2.2 (by decide) (by decide)⟩

/-- Claim C6, counterexample: a binary-operator opcode with sub-operation 0
    (byte 0x00) and a pattern-test opcode with sub-operation 7 (byte 0x67)
    both DECODE successfully as 1-byte instructions; the decoder does not
    fail with the invalid-opcode error for them (they are only rejected
    later, at render time). -/
theorem C6_counterexample :
    get_instr [0] 0 = .ok [0] ∧ get_instr [103] 0 = .ok [103] := by
  refine ⟨by decide, by decide⟩

/-- Claim C6, amended: decode fails with the invalid-opcode error exactly for
    the class/sub-operation combinations absent from the length table:
    classes 8 to 14 entirely, class 1 sub-ops 12 to 15, class 5 sub-ops 11
    to 15, and class 7 sub-ops 5 to 15. Out-of-range binary-operator
    (class 0) and pattern-test (class 6) sub-operations decode successfully
    as 1-byte instructions and are rejected only by the renderer, with the
    invalid-BINOP and invalid-PATT errors respectively. -/
theorem C6_dispatch :
    (∀ b : Nat, b < 256 → 8 ≤ b / 16 → b / 16 ≤ 14 →
      get_instr [b] 0 = .error .invalidOpcode) ∧
    (∀ b : Nat, b < 256 → b / 16 = 1 → 12 ≤ b % 16 →
      get_instr [b] 0 = .error .invalidOpcode) ∧
    (∀ b : Nat, b < 256 → b / 16 = 5 → 11 ≤ b % 16 →
      get_instr [b] 0 = .error .invalidOpcode) ∧
    (∀ b : Nat, b < 256 → b / 16 = 7 → 5 ≤ b % 16 →
      get_instr [b] 0 = .error .invalidOpcode) ∧
    (∀ b : Nat, b < 256 → b / 16 = 0 → (b % 16 = 0 ∨ 13 < b % 16) →
      get_instr [b] 0 = .ok [b] ∧
        (printInstr ⟨0, 0, 0, []⟩ [b]).2 = some .invalidBinop) ∧
    (∀ b : Nat, b < 256 → b / 16 = 6 → 7 ≤ b % 16 →
      get_instr [b] 0 = .ok [b] ∧
        (printInstr ⟨0, 0, 0, []⟩ [b]).2 = some .invalidPatt) := by
  refine ⟨by decide, by decide, by decide, by decide, by decide, by decide⟩

/-- Witness for C6_dispatch at concrete opcodes 0x80, 0x1C and 0x00. -/
theorem C6_witness :
    get_instr [128] 0 = .error .invalidOpcode ∧
    get_instr [28] 0 = .error .invalidOpcode ∧
    (get_instr [0] 0 = .ok [0] ∧
      (printInstr ⟨0, 0, 0, []⟩ [0]).2 = some .invalidBinop) :=
  ⟨C6_dispatch.1 128 (by decide) (by decide) (by decide),
   C6_dispatch.2.1 28 (by decide) (by decide) (by decide),
   C6_dispatch.2.2.2.2.1 0 (by decide) (by decide) (by decide)⟩

/-- Claim C7, counterexample: a render error does NOT leave the output empty
    or complete. With code region 0x01 0x67 0xF0 the program emits the
    complete line for BINOP + and the count prefix of the next line, then
    aborts on the invalid PATT sub-operation: the run produces the partial
    output "1 x BINOP +\n1 x " together with the error. -/
theorem C7_counterexample :
    run [0,0,0,0, 0,0,0,0, 0,0,0,0, 1, 103, 240] 4 =
      some ("1 x BINOP +\n1 x ", some Err.invalidPatt) ∧
    ("1 x BINOP +\n1 x " : String) ≠ "" := by
  constructor
  · decide
  · decide

/-- Claim C7, amended: any DECODE error during the walk aborts the run
    before any report output is produced; render errors, in contrast, can
    abort mid-report (see the counterexample). -/
theorem C7_decode_abort (file : List Nat) (fuel : Nat) (f : BytecodeFile) (e : Err)
    (h1 : load file = .ok f)
    (h2 : walkAux (codeRegion f) fuel 0 = some (.error e)) :
    run file fuel = some ("", some e) := by
  unfold run
  simp only [h1, h2]

/-- Witness for C7_decode_abort: a truncated LD instruction aborts the whole
    run with the EOF error and empty output. -/
theorem C7_witness :
    run [0,0,0,0, 0,0,0,0, 0,0,0,0, 32] 1 = some ("", some .eof) :=
  C7_decode_abort [0,0,0,0, 0,0,0,0, 0,0,0,0, 32] 1 ⟨0, 0, 0, [32]⟩ .eof
    (by decide) (by decide)

/-- Claim C8, counterexample: with public_symbols_number = 2^29 the product
    8 * public_symbols_number wraps to 0 in the 32-bit arithmetic of the
    source, so the file loads successfully even though the exact string
    table end offset 8 * 2^29 + 0 = 2^32 far exceeds the 1-byte buffer. -/
theorem C8_counterexample :
    load [0,0,0,0, 0,0,0,0, 0,0,0,32, 240] = .ok ⟨0, 0, 536870912, [240]⟩ ∧
    ¬(8 * (⟨0, 0, 536870912, [240]⟩ : BytecodeFile).public_symbols_number +
        (⟨0, 0, 536870912, [240]⟩ : BytecodeFile).stringtab_size ≤
      (⟨0, 0, 536870912, [240]⟩ : BytecodeFile).bytes.length) := by
  constructor
  · decide
  · decide

/-- Claim C8, amended: the region invariant holds in the WRAPPED arithmetic
    of the source: every successfully loaded container satisfies
    code_start < length of raw_bytes, where code_start equals the wrapped
    string-table end offset (8 * public_symbols_number mod 2^32) +
    stringtab_size; and load fails with one of the two metadata errors
    whenever that wrapped end offset reaches the end of the buffer. -/
theorem C8_region_invariant :
    (∀ (file : List Nat) (f : BytecodeFile), load file = .ok f →
      code_start f < f.bytes.length) ∧
    (∀ file : List Nat, 12 ≤ file.length →
      file.length - 12 ≤ hdr_stStart file + hdr_sts file →
      load file = .error .badPsn ∨ load file = .error .badStringtabSize) :=
  ⟨fun _ _ h => load_ok_inv h, fun _ h12 hge => load_bad_regions h12 hge⟩

/-- Witness for C8_region_invariant: a loaded container satisfies the wrapped
    invariant, and an oversized declared string table is rejected. -/
theorem C8_witness :
    code_start ⟨0, 0, 0, [240]⟩ < (⟨0, 0, 0, [240]⟩ : BytecodeFile).bytes.length ∧
    (load [1,0,0,0, 0,0,0,0, 0,0,0,0, 240] = .error .badPsn ∨
      load [1,0,0,0, 0,0,0,0, 0,0,0,0, 240] = .error .badStringtabSize) :=
  ⟨C8_region_invariant.1 [0,0,0,0, 0,0,0,0, 0,0,0,0, 240] ⟨0, 0, 0, [240]⟩ (by decide),
   C8_region_invariant.2 [1,0,0,0, 0,0,0,0, 0,0,0,0, 240] (by decide) (by decide)⟩

/-- Claim C9, confirmed: the report text emitted by Frequencies::print is
    invariant under any permutation of the frequency-map entries, so the
    unordered hash-map iteration order never influences the output and two
    runs of the pipeline on the same input are byte-identical. -/
theorem C9_deterministic_report (f : BytecodeFile) (l₁ l₂ : List (List Nat × Nat))
    (h : l₁.Perm l₂) : printReport f l₁ = printReport f l₂ := by
  unfold printReport
  rw [List.eq_of_perm_of_sorted
    ((List.perm_insertionSort entryLE l₁).trans
      (h.trans (List.perm_insertionSort entryLE l₂).symm))
    (List.sorted_insertionSort entryLE l₁)
    (List.sorted_insertionSort entryLE l₂)]

/-- Witness for C9_deterministic_report at a concrete permutation. -/
theorem C9_witness :
    printReport ⟨0, 0, 0, []⟩ [([16,5,0,0,0], 1), ([240], 2)] =
      printReport ⟨0, 0, 0, []⟩ [([240], 2), ([16,5,0,0,0], 1)] :=
  C9_deterministic_report ⟨0, 0, 0, []⟩ _ _ (by decide)

/-- Claim C10, confirmed: the push-string-constant instruction (opcode 0x11)
    always renders successfully as the raw decimal of its operand and never
    raises the string-out-of-bounds error; that error can only arise from
    SEXP (0x12) and TAG (0x57), the only opcodes that resolve string-table
    offsets. -/
theorem C10_string_no_oob :
    (∀ (f : BytecodeFile) (w : List Nat), byteAt w 0 = 17 →
      printInstr f w = ("STRING " ++ toString (gi w 1), none)) ∧
    (∀ (f : BytecodeFile) (w : List Nat),
      (printInstr f w).2 = some Err.strOob →
        byteAt w 0 = 18 ∨ byteAt w 0 = 87) := by
  constructor
  · intro f w hb
    unfold printInstr
    rw [hb]
    rfl
  · intro f w h
    have hlt : byteAt w 0 < 256 := Nat.mod_lt _ (by norm_num)
    unfold printInstr at h
    have h1 := printHiLo_strOob f w (byteAt w 0 / 16) (byteAt w 0 % 16)
      (by omega) (by omega) h
    rcases h1 with ⟨ha, hb2⟩ | ⟨ha, hb2⟩
    · left; omega
    · right; omega

/-- Witness for C10_string_no_oob: STRING with operand 5 renders as
    "STRING 5"; a SEXP whose offset misses the empty string table raises
    exactly the string-out-of-bounds error and its opcode is 0x12. -/
theorem C10_witness :
    printInstr ⟨0, 0, 0, []⟩ [17, 5,0,0,0] =
      ("STRING " ++ toString (gi [17, 5,0,0,0] 1), none) ∧
    (byteAt [18, 0,0,0,0, 1,0,0,0] 0 = 18 ∨ byteAt [18, 0,0,0,0, 1,0,0,0] 0 = 87) :=
  ⟨C10_string_no_oob.1 ⟨0, 0, 0, []⟩ [17, 5,0,0,0] (by decide),
   C10_string_no_oob.2 ⟨0, 0, 0, []⟩ [18, 0,0,0,0, 1,0,0,0] (by decide)⟩
